import Mathlib

/-!
Shallow embedding of the valutatrade_hub ledger (src/valutatrade_hub/core/models.py
and src/valutatrade_hub/cli/interface.py).

Python dicts with string keys are modelled as association lists with unique keys,
preserving insertion order: assignment replaces the value of an existing key in
place and appends a fresh key at the end, exactly as a CPython dict does.
Balances and rates (Python floats) are modelled as rationals.
Python exceptions raised by validation are modelled as `Except` errors, using the
error-kind names of the specification ("InvalidAmount", "InsufficientFunds",
"DuplicateWallet", "UnknownBaseCurrency", "NegativeBalance") as payloads in place
of the Russian `ValueError` messages of the source.
-/

/-- Lookup in an association list, as Python `d.get(k)` / `d[k]`. -/
def lookupA {α : Type} : List (String × α) → String → Option α
  | [], _ => none
  | (k₂, v) :: rest, k => if k₂ = k then some v else lookupA rest k

/-- Assignment `d[k] = v` on a Python dict: replaces the value of an existing
key in place, appends a new key at the end. -/
def setA {α : Type} : List (String × α) → String → α → List (String × α)
  | [], k, v => [(k, v)]
  | (k₂, v₂) :: rest, k, v =>
      if k₂ = k then (k₂, v) :: rest else (k₂, v₂) :: setA rest k v

/-- Deletion `del d[k]` on a Python dict. -/
def eraseA {α : Type} (ws : List (String × α)) (k : String) : List (String × α) :=
  ws.filter (fun kv => kv.1 != k)

/-- Keys of the dict, in order. -/
def keysA {α : Type} (ws : List (String × α)) : List String :=
  ws.map (fun kv => kv.1)

theorem lookupA_setA_self {α : Type} (ws : List (String × α)) (k : String) (v : α) :
    lookupA (setA ws k v) k = some v := by
  induction ws with
  | nil => simp [setA, lookupA]
  | cons kv rest ih =>
      by_cases h : kv.1 = k
      · simp [setA, lookupA, h]
      · simp [setA, lookupA, h, ih]

theorem lookupA_setA_ne {α : Type} (ws : List (String × α)) (k k₂ : String) (v : α)
    (h : k ≠ k₂) : lookupA (setA ws k v) k₂ = lookupA ws k₂ := by
  induction ws with
  | nil => simp [setA, lookupA, h]
  | cons kv rest ih =>
      by_cases hk : kv.1 = k
      · simp [setA, lookupA, hk, h]
      · simp [setA, lookupA, hk, ih]

theorem lookupA_setA_isSome {α : Type} (ws : List (String × α)) (k k₂ : String) (v : α)
    (h : (lookupA ws k₂).isSome) : (lookupA (setA ws k v) k₂).isSome := by
  by_cases hk : k = k₂
  · subst hk; simp [lookupA_setA_self]
  · rwa [lookupA_setA_ne ws k k₂ v hk]

theorem lookupA_eq_none_iff {α : Type} (ws : List (String × α)) (k : String) :
    lookupA ws k = none ↔ k ∉ keysA ws := by
  induction ws with
  | nil => simp [lookupA, keysA]
  | cons kv rest ih =>
      by_cases hk : kv.1 = k
      · simp [lookupA, keysA, hk]
      · simp [lookupA, keysA, hk, ih, Ne.symm hk]

theorem keysA_setA_of_isSome {α : Type} (ws : List (String × α)) (k : String) (v : α)
    (h : (lookupA ws k).isSome) : keysA (setA ws k v) = keysA ws := by
  induction ws with
  | nil => simp [lookupA] at h
  | cons kv rest ih =>
      by_cases hk : kv.1 = k
      · simp [setA, keysA, hk]
      · simp only [lookupA, hk, if_false] at h
        have hih := ih h
        simp only [keysA] at hih
        simp [setA, keysA, hk, hih]

theorem keysA_setA_of_none {α : Type} (ws : List (String × α)) (k : String) (v : α)
    (h : lookupA ws k = none) : keysA (setA ws k v) = keysA ws ++ [k] := by
  induction ws with
  | nil => simp [setA, keysA]
  | cons kv rest ih =>
      by_cases hk : kv.1 = k
      · simp [lookupA, hk] at h
      · simp only [lookupA, hk, if_false] at h
        have hih := ih h
        simp only [keysA] at hih
        simp [setA, keysA, hk, hih]

theorem keysA_setA_nodup {α : Type} (ws : List (String × α)) (k : String) (v : α)
    (h : (keysA ws).Nodup) : (keysA (setA ws k v)).Nodup := by
  cases hlk : lookupA ws k with
  | some v₂ =>
      rw [keysA_setA_of_isSome ws k v (by simp [hlk])]
      exact h
  | none =>
      rw [keysA_setA_of_none ws k v hlk]
      have hnm : k ∉ keysA ws := (lookupA_eq_none_iff ws k).mp hlk
      simp [List.nodup_append, h, hnm]

namespace Wallet

/-- Deposit into a wallet, from `Wallet.deposit` in core/models.py: rejects a
non-positive amount, otherwise adds it to the balance. -/
def deposit (balance amount : ℚ) : Except String ℚ :=
  if amount ≤ 0 then .error "InvalidAmount" else .ok (balance + amount)

/-- Withdraw from a wallet, from `Wallet.withdraw` in core/models.py: rejects a
non-positive amount, rejects an amount above the balance, otherwise subtracts. -/
def withdraw (balance amount : ℚ) : Except String ℚ :=
  if amount ≤ 0 then .error "InvalidAmount"
  else if balance < amount then .error "InsufficientFunds"
  else .ok (balance - amount)

/-- Balance assignment, from the `balance` property setter in core/models.py:
rejects a negative value, otherwise stores it. -/
def setBalance (value : ℚ) : Except String ℚ :=
  if value < 0 then .error "NegativeBalance" else .ok value

end Wallet

/-- One mutation of a single wallet's balance: deposit, withdraw, or direct
assignment through the balance setter. -/
inductive WalletOp where
  | deposit (amount : ℚ)
  | withdraw (amount : ℚ)
  | setBalance (value : ℚ)
deriving Repr, DecidableEq

/-- Run one wallet operation on the current balance; an error leaves the
balance unreadable from the result. In the source every raise happens before
the mutation of `_balance`, so a failed operation changes nothing. -/
def walletStep (balance : ℚ) : WalletOp → Except String ℚ
  | .deposit a => Wallet.deposit balance a
  | .withdraw a => Wallet.withdraw balance a
  | .setBalance v => Wallet.setBalance v

/-- Run a sequence of wallet operations; a rejected operation leaves the
balance unchanged (the exception propagates, no mutation happened). -/
def runWalletOps (balance : ℚ) : List WalletOp → ℚ
  | [] => balance
  | op :: ops =>
      match walletStep balance op with
      | .ok b₂ => runWalletOps b₂ ops
      | .error _ => runWalletOps balance ops

theorem walletStep_ok_nonneg (b b₂ : ℚ) (op : WalletOp) (hb : 0 ≤ b)
    (h : walletStep b op = .ok b₂) : 0 ≤ b₂ := by
  cases op with
  | deposit a =>
      simp only [walletStep, Wallet.deposit] at h
      split at h
      · exact absurd h (by simp)
      · rename_i ha
        cases h
        have : 0 < a := lt_of_not_ge ha
        linarith
  | withdraw a =>
      simp only [walletStep, Wallet.withdraw] at h
      split at h
      · exact absurd h (by simp)
      · split at h
        · exact absurd h (by simp)
        · rename_i hba
          cases h
          have : a ≤ b := le_of_not_gt hba
          linarith
  | setBalance v =>
      simp only [walletStep, Wallet.setBalance] at h
      split at h
      · exact absurd h (by simp)
      · rename_i hv
        cases h
        exact le_of_not_gt hv

theorem runWalletOps_nonneg (b : ℚ) (ops : List WalletOp) (hb : 0 ≤ b) :
    0 ≤ runWalletOps b ops := by
  induction ops generalizing b with
  | nil => simpa [runWalletOps] using hb
  | cons op ops ih =>
      simp only [runWalletOps]
      cases h : walletStep b op with
      | ok b₂ => exact ih b₂ (walletStep_ok_nonneg b b₂ op hb h)
      | error e => exact ih b hb

/-- C1. Wallet balances stay non-negative: starting from any non-negative
balance (every constructed `Wallet` has one, the constructor runs the setter),
every sequence of deposit / withdraw / balance-assignment operations keeps the
balance non-negative at every point, a rejected operation raises an error and
leaves the balance unchanged, and an operation that would drive the balance
negative is rejected with an error, never clamped to zero. -/
theorem wallet_balance_nonneg (b : ℚ) (ops : List WalletOp) (hb : 0 ≤ b) :
    0 ≤ runWalletOps b ops
    ∧ (∀ pre post, ops = pre ++ post → 0 ≤ runWalletOps b pre)
    ∧ (∀ op e, walletStep b op = .error e → runWalletOps b (op :: ops) = runWalletOps b ops)
    ∧ (∀ a, b < a → walletStep b (.withdraw a) = .error "InsufficientFunds")
    ∧ (∀ v, v < 0 → walletStep b (.setBalance v) = .error "NegativeBalance") := by
  refine ⟨runWalletOps_nonneg b ops hb, ?_, ?_, ?_, ?_⟩
  · intro pre post _
    exact runWalletOps_nonneg b pre hb
  · intro op e h
    simp [runWalletOps, h]
  · intro a ha
    have ha0 : ¬ a ≤ 0 := by linarith
    simp [walletStep, Wallet.withdraw, ha0, ha]
  · intro v hv
    simp [walletStep, Wallet.setBalance, hv]

/-- Witness for C1 at a concrete wallet: balance 5, a deposit of 3, an
over-withdrawal of 10 (rejected) and a withdrawal of 2. -/
theorem wallet_balance_nonneg_witness :
    0 ≤ (5 : ℚ)
    ∧ (0 ≤ runWalletOps 5 [.deposit 3, .withdraw 10, .withdraw 2]
       ∧ (∀ pre post, ([.deposit 3, .withdraw 10, .withdraw 2] : List WalletOp) = pre ++ post →
            0 ≤ runWalletOps 5 pre)
       ∧ (∀ op e, walletStep 5 op = .error e →
            runWalletOps 5 (op :: [.deposit 3, .withdraw 10, .withdraw 2])
              = runWalletOps 5 [.deposit 3, .withdraw 10, .withdraw 2])
       ∧ (∀ a, (5 : ℚ) < a → walletStep 5 (.withdraw a) = .error "InsufficientFunds")
       ∧ (∀ v, v < 0 → walletStep 5 (.setBalance v) = .error "NegativeBalance")) :=
  ⟨by norm_num, wallet_balance_nonneg 5 [.deposit 3, .withdraw 10, .withdraw 2] (by norm_num)⟩

/-- Rate table loaded from rates.json: a directed mapping base currency to a
mapping of quote currency to rate, as in load_rates in cli/interface.py. -/
abbrev RatesTable : Type := List (String × List (String × ℚ))

/-- Rate lookup, from get_rate in cli/interface.py: the stored rate when the
directed pair exists in the table, None otherwise. -/
def get_rate (rates : RatesTable) (a b : String) : Option ℚ :=
  match lookupA rates a with
  | some row => lookupA row b
  | none => none

/-- C8. get_rate returns the stored rate when the directed pair exists in the
table, and otherwise the explicit absence value none, never zero by default
and never an error. -/
theorem get_rate_absence_semantics (rates : RatesTable) (a b : String) :
    (∀ row r, lookupA rates a = some row → lookupA row b = some r →
        get_rate rates a b = some r)
    ∧ ((¬ ∃ row r, lookupA rates a = some row ∧ lookupA row b = some r) →
        get_rate rates a b = none) := by
  constructor
  · intro row r hrow hr
    simp [get_rate, hrow, hr]
  · intro habs
    cases hrow : lookupA rates a with
    | none => simp [get_rate, hrow]
    | some row =>
        cases hr : lookupA row b with
        | none => simp [get_rate, hrow, hr]
        | some r => exact absurd ⟨row, r, hrow, hr⟩ habs

/-- Fixed internal reference table of Portfolio.get_total_value in
core/models.py: the three hard-coded rates. -/
def exchange_rates : List (String × ℚ) :=
  [("USD", 1), ("EUR", 11 / 10), ("BTC", 50000)]

/-- Portfolio wallet mapping: currency code to balance, as the dict held by
the `_wallets` attribute of a Portfolio (each Wallet reduced to its balance). -/
abbrev WalletMap : Type := List (String × ℚ)

/-- Valuation, from Portfolio.get_total_value in core/models.py: rejects a
base currency absent from the fixed table, otherwise sums balance times the
fixed rate of the wallet's code over the wallets whose code the fixed table
holds, and divides the sum by the fixed rate of the base currency. -/
def get_total_value (wallets : WalletMap) (base : String) : Except String ℚ :=
  match lookupA exchange_rates base with
  | none => .error "UnknownBaseCurrency"
  | some rb =>
      .ok ((wallets.foldl (fun total cw =>
        match lookupA exchange_rates cw.1 with
        | none => total
        | some r => total + cw.2 * r) 0) / rb)

/-- Valuation as the specification words it: the sum of balance times the
rate code-to-base derived from the fixed table, over all wallets, a wallet
whose code is absent from the fixed table contributing nothing. -/
def specTotalValue (wallets : WalletMap) (rb : ℚ) : ℚ :=
  (wallets.map (fun cw =>
    match lookupA exchange_rates cw.1 with
    | none => 0
    | some r => cw.2 * (r / rb))).sum

theorem get_total_foldl_eq (wallets : WalletMap) (a : ℚ) :
    wallets.foldl (fun total cw =>
        match lookupA exchange_rates cw.1 with
        | none => total
        | some r => total + cw.2 * r) a
      = a + (wallets.map (fun cw =>
          match lookupA exchange_rates cw.1 with
          | none => 0
          | some r => cw.2 * r)).sum := by
  induction wallets generalizing a with
  | nil => simp
  | cons cw rest ih =>
      cases h : lookupA exchange_rates cw.1 with
      | none => simp [List.foldl_cons, h, ih]
      | some r =>
          simp only [List.foldl_cons, h, List.map_cons, List.sum_cons, ih (a + cw.2 * r)]
          ring

/-- C4. get_total_value sums balance times rate of code to base over all the
wallets, with the rate derived from the fixed internal table of three
hard-coded rates USD one, EUR eleven tenths, BTC fifty thousand; a wallet
whose code is absent from that fixed table is silently skipped, and a base
currency absent from the fixed table is rejected with UnknownBaseCurrency. -/
theorem get_total_value_spec (wallets : WalletMap) (base : String) :
    exchange_rates = [("USD", 1), ("EUR", 11 / 10), ("BTC", 50000)]
    ∧ (∀ rb, lookupA exchange_rates base = some rb →
        get_total_value wallets base = .ok (specTotalValue wallets rb))
    ∧ (lookupA exchange_rates base = none →
        get_total_value wallets base = .error "UnknownBaseCurrency") := by
  refine ⟨rfl, ?_, ?_⟩
  · intro rb hrb
    simp only [get_total_value, hrb, specTotalValue, get_total_foldl_eq, zero_add]
    congr 1
    induction wallets with
    | nil => simp
    | cons cw rest ih =>
        cases h : lookupA exchange_rates cw.1 with
        | none => simp [h, ih, add_div]
        | some r => simp [h, ih, add_div, mul_div_assoc]
  · intro hnone
    simp [get_total_value, hnone]

/-- Witness for C4 at a concrete portfolio: wallets USD ten, XYZ five (skipped),
BTC a tenth, valued in EUR, and a rejected base currency ZZZ. -/
theorem get_total_value_spec_witness :
    (lookupA exchange_rates "EUR" = some (11 / 10)
     ∧ get_total_value [("USD", 10), ("XYZ", 5), ("BTC", 1 / 10)] "EUR"
        = .ok (specTotalValue [("USD", 10), ("XYZ", 5), ("BTC", 1 / 10)] (11 / 10)))
    ∧ (lookupA exchange_rates "ZZZ" = none
       ∧ get_total_value [("USD", 10), ("XYZ", 5), ("BTC", 1 / 10)] "ZZZ"
          = .error "UnknownBaseCurrency") :=
  ⟨⟨rfl, (get_total_value_spec [("USD", 10), ("XYZ", 5), ("BTC", 1 / 10)] "EUR").2.1
      (11 / 10) rfl⟩,
   ⟨rfl, (get_total_value_spec [("USD", 10), ("XYZ", 5), ("BTC", 1 / 10)] "ZZZ").2.2
      rfl⟩⟩

/-- Uppercasing of a currency code, as Python str.upper applied character by
character (codes in this system are ASCII). -/
def upperString (s : String) : String :=
  String.mk (s.data.map Char.toUpper)

/-- Currency creation, from Portfolio.add_currency in core/models.py: rejects a
code that already has a wallet, otherwise stores a fresh zero-balance wallet
under the code. -/
def add_currency (wallets : WalletMap) (code : String) : Except String WalletMap :=
  if (lookupA wallets code).isSome then .error "DuplicateWallet"
  else .ok (setA wallets code 0)

/-- Outcome of the buy command of cli/interface.py. The wallets argument of
each constructor is the in-memory wallet mapping of the logged-in user's
portfolio when the command returns; only the done outcome has executed
save_portfolios. -/
inductive BuyOutcome where
  | invalidAmount (wallets : WalletMap)
  | balanceError (wallets : WalletMap)
  | rateUnavailable (wallets : WalletMap)
  | done (wallets : WalletMap) (rate cost : ℚ)
deriving Repr

/-- Wallet mapping left in memory by a buy command. -/
def buyWallets : BuyOutcome → WalletMap
  | .invalidAmount ws => ws
  | .balanceError ws => ws
  | .rateUnavailable ws => ws
  | .done ws _ _ => ws

/-- Whether the buy command reached its save_portfolios call. -/
def buySaved : BuyOutcome → Bool
  | .done _ _ _ => true
  | _ => false

/-- Buy, from buy in cli/interface.py, after login: validate the amount as a
positive number, uppercase the currency, create a zero-balance wallet through
add_currency when the portfolio has none for the code, add the amount to the
wallet's balance through the balance setter, then look up the rate of the
currency to USD; when the rate is absent the command prints a failure and
returns, otherwise it computes the estimated cost and calls save_portfolios. -/
def buy (rates : RatesTable) (wallets₀ : WalletMap) (currency : String)
    (amount : ℚ) : BuyOutcome :=
  if amount ≤ 0 then .invalidAmount wallets₀
  else
    let c := upperString currency
    let wallets₁ :=
      if (lookupA wallets₀ c).isSome then wallets₀
      else
        match add_currency wallets₀ c with
        | .ok ws => ws
        | .error _ => wallets₀
    let before := (lookupA wallets₁ c).getD 0
    match Wallet.setBalance (before + amount) with
    | .error _ => .balanceError wallets₁
    | .ok b₂ =>
        let wallets₂ := setA wallets₁ c b₂
        match get_rate rates c "USD" with
        | none => .rateUnavailable wallets₂
        | some r => .done wallets₂ r (amount * r)

/-- Outcome of the sell command of cli/interface.py; as with BuyOutcome, only
the done outcome has executed save_portfolios. -/
inductive SellOutcome where
  | invalidAmount (wallets : WalletMap)
  | noWallet (wallets : WalletMap)
  | insufficientFunds (wallets : WalletMap)
  | balanceError (wallets : WalletMap)
  | rateUnavailable (wallets : WalletMap)
  | done (wallets : WalletMap) (rate revenue : ℚ)
deriving Repr

/-- Wallet mapping left in memory by a sell command. -/
def sellWallets : SellOutcome → WalletMap
  | .invalidAmount ws => ws
  | .noWallet ws => ws
  | .insufficientFunds ws => ws
  | .balanceError ws => ws
  | .rateUnavailable ws => ws
  | .done ws _ _ => ws

/-- Whether the sell command reached its save_portfolios call. -/
def sellSaved : SellOutcome → Bool
  | .done _ _ _ => true
  | _ => false

/-- Sell, from sell in cli/interface.py, after login: validate the amount as a
positive number, uppercase the currency, reject when the portfolio has no
wallet for the code, reject when the wallet's balance is below the amount,
subtract the amount through the balance setter, then look up the rate of the
currency to USD; when the rate is absent the command prints a failure and
returns, otherwise it computes the revenue, creates a USD wallet through
add_currency when absent, adds the revenue to the USD wallet's balance through
the balance setter, and calls save_portfolios. When the currency sold is USD
itself, the wallet credited with the revenue is the wallet that was debited. -/
def sell (rates : RatesTable) (wallets₀ : WalletMap) (currency : String)
    (amount : ℚ) : SellOutcome :=
  if amount ≤ 0 then .invalidAmount wallets₀
  else
    let c := upperString currency
    match lookupA wallets₀ c with
    | none => .noWallet wallets₀
    | some b =>
        if b < amount then .insufficientFunds wallets₀
        else
          match Wallet.setBalance (b - amount) with
          | .error _ => .balanceError wallets₀
          | .ok b₂ =>
              let wallets₁ := setA wallets₀ c b₂
              match get_rate rates c "USD" with
              | none => .rateUnavailable wallets₁
              | some r =>
                  let revenue := amount * r
                  let wallets₂ :=
                    if (lookupA wallets₁ "USD").isSome then wallets₁
                    else
                      match add_currency wallets₁ "USD" with
                      | .ok ws => ws
                      | .error _ => wallets₁
                  let usdBal := (lookupA wallets₂ "USD").getD 0
                  match Wallet.setBalance (usdBal + revenue) with
                  | .error _ => .balanceError wallets₂
                  | .ok u₂ => .done (setA wallets₂ "USD" u₂) r revenue

/-- Wallet mapping after the deposit phase of buy: the wallet of the code is
created at zero balance when absent, then its balance is raised by the
amount. -/
def buyDeposit (wallets₀ : WalletMap) (c : String) (amount : ℚ) : WalletMap :=
  setA (if (lookupA wallets₀ c).isSome then wallets₀ else setA wallets₀ c 0) c
    ((lookupA wallets₀ c).getD 0 + amount)

theorem lookupA_buyDeposit (wallets₀ : WalletMap) (c : String) (amount : ℚ) :
    lookupA (buyDeposit wallets₀ c amount) c
      = some ((lookupA wallets₀ c).getD 0 + amount) := by
  simp [buyDeposit, lookupA_setA_self]

theorem buy_eval (rates : RatesTable) (wallets₀ : WalletMap) (currency : String)
    (amount : ℚ) (hpos : 0 < amount)
    (hwf : 0 ≤ (lookupA wallets₀ (upperString currency)).getD 0) :
    buy rates wallets₀ currency amount =
      match get_rate rates (upperString currency) "USD" with
      | none => .rateUnavailable (buyDeposit wallets₀ (upperString currency) amount)
      | some r => .done (buyDeposit wallets₀ (upperString currency) amount) r (amount * r) := by
  have hneg : ¬ amount ≤ 0 := not_le.mpr hpos
  unfold buy
  rw [if_neg hneg]
  cases hc : lookupA wallets₀ (upperString currency) with
  | some b =>
      have hb : 0 ≤ b := by simpa [hc] using hwf
      simp only [hc, Option.isSome_some, if_true, Option.getD_some]
      rw [Wallet.setBalance, if_neg (by linarith)]
      simp [buyDeposit, hc]
  | none =>
      simp only [hc, Option.isSome_none, Bool.false_eq_true, if_false,
        add_currency, hc, Option.getD_none]
      rw [lookupA_setA_self]
      simp only [Option.getD_some]
      rw [Wallet.setBalance, if_neg (by linarith)]
      simp [buyDeposit, hc]

/-- C3. A buy with a valid positive amount raises the target wallet's balance
by exactly the amount: the wallet starts at its prior balance, or at zero when
the portfolio had none for the code (a zero-balance wallet is created first),
and the resulting mapping is the same whatever the rate table holds, so the
deposit is independent of rate availability and is not rolled back when the
rate lookup fails. -/
theorem buy_increases_balance (rates : RatesTable) (wallets₀ : WalletMap)
    (currency : String) (amount : ℚ) (hpos : 0 < amount)
    (hwf : 0 ≤ (lookupA wallets₀ (upperString currency)).getD 0) :
    lookupA (buyWallets (buy rates wallets₀ currency amount)) (upperString currency)
      = some ((lookupA wallets₀ (upperString currency)).getD 0 + amount)
    ∧ (∀ rates₂, buyWallets (buy rates₂ wallets₀ currency amount)
        = buyWallets (buy rates wallets₀ currency amount)) := by
  constructor
  · rw [buy_eval rates wallets₀ currency amount hpos hwf]
    cases hr : get_rate rates (upperString currency) "USD" with
    | none => simp [buyWallets, lookupA_buyDeposit]
    | some r => simp [buyWallets, lookupA_buyDeposit]
  · intro rates₂
    rw [buy_eval rates wallets₀ currency amount hpos hwf,
        buy_eval rates₂ wallets₀ currency amount hpos hwf]
    cases hr : get_rate rates (upperString currency) "USD" with
    | none =>
        cases hr₂ : get_rate rates₂ (upperString currency) "USD" with
        | none => simp [buyWallets]
        | some r₂ => simp [buyWallets]
    | some r =>
        cases hr₂ : get_rate rates₂ (upperString currency) "USD" with
        | none => simp [buyWallets]
        | some r₂ => simp [buyWallets]

/-- Witness for C3 at a concrete buy: empty portfolio, no rate table entry,
buy five EUR; the EUR wallet is created and holds exactly five. -/
theorem buy_increases_balance_witness :
    (0 < (5 : ℚ) ∧ 0 ≤ ((lookupA ([] : WalletMap) (upperString "EUR")).getD 0))
    ∧ (lookupA (buyWallets (buy [] [] "EUR" 5)) (upperString "EUR")
        = some ((lookupA ([] : WalletMap) (upperString "EUR")).getD 0 + 5)
       ∧ (∀ rates₂, buyWallets (buy rates₂ [] "EUR" 5)
            = buyWallets (buy [] [] "EUR" 5))) :=
  ⟨⟨by norm_num, by norm_num [lookupA]⟩,
   buy_increases_balance [] [] "EUR" 5 (by norm_num) (by norm_num [lookupA])⟩

/-- Counterexample to C6 as stated: a buy of five EUR on an empty portfolio
with an empty rate table applies the deposit (the EUR wallet holds five) yet
returns before save_portfolios, so the updated portfolio is not persisted. -/
theorem buy_no_persist_counterexample :
    buy [] [] "EUR" 5 = .rateUnavailable [("EUR", 5)]
    ∧ buySaved (buy [] [] "EUR" 5) = false := by
  have hU : upperString "EUR" = "EUR" := by decide
  norm_num [buy, buySaved, hU, lookupA, setA, get_rate, Wallet.setBalance, add_currency]

/-- C6 amended. A buy whose amount validation succeeds reaches
save_portfolios exactly when the rate lookup of the currency to USD succeeds:
with the rate available the updated portfolio is persisted, and with the rate
unavailable the command returns without persisting, though the deposit stays
applied to the in-memory portfolio (it is not rolled back). -/
theorem buy_persists_iff_rate (rates : RatesTable) (wallets₀ : WalletMap)
    (currency : String) (amount : ℚ) (hpos : 0 < amount)
    (hwf : 0 ≤ (lookupA wallets₀ (upperString currency)).getD 0) :
    (get_rate rates (upperString currency) "USD" = none →
        buySaved (buy rates wallets₀ currency amount) = false
        ∧ lookupA (buyWallets (buy rates wallets₀ currency amount)) (upperString currency)
            = some ((lookupA wallets₀ (upperString currency)).getD 0 + amount))
    ∧ (∀ r, get_rate rates (upperString currency) "USD" = some r →
        buySaved (buy rates wallets₀ currency amount) = true) := by
  rw [buy_eval rates wallets₀ currency amount hpos hwf]
  constructor
  · intro hr
    rw [hr]
    simp [buySaved, buyWallets, lookupA_buyDeposit]
  · intro r hr
    rw [hr]
    simp [buySaved]

/-- Witness for C6 at concrete buys: the unavailable-rate buy of the
counterexample input, and a buy of ten EUR with the rate EUR to USD present. -/
theorem buy_persists_iff_rate_witness :
    (0 < (10 : ℚ) ∧ 0 ≤ ((lookupA ([] : WalletMap) (upperString "EUR")).getD 0))
    ∧ ((get_rate [("EUR", [("USD", 11 / 10)])] (upperString "EUR") "USD" = none →
          buySaved (buy [("EUR", [("USD", 11 / 10)])] [] "EUR" 10) = false
          ∧ lookupA (buyWallets (buy [("EUR", [("USD", 11 / 10)])] [] "EUR" 10))
              (upperString "EUR")
              = some ((lookupA ([] : WalletMap) (upperString "EUR")).getD 0 + 10))
       ∧ (∀ r, get_rate [("EUR", [("USD", 11 / 10)])] (upperString "EUR") "USD" = some r →
            buySaved (buy [("EUR", [("USD", 11 / 10)])] [] "EUR" 10) = true)) :=
  ⟨⟨by norm_num, by norm_num [lookupA]⟩,
   buy_persists_iff_rate [("EUR", [("USD", 11 / 10)])] [] "EUR" 10
     (by norm_num) (by norm_num [lookupA])⟩

/-- Tail of the sell command once the rate is available: the revenue is
amount times rate, a USD wallet is created when absent, and the revenue is
added to the USD wallet's balance through the balance setter. -/
def sellCredit (wallets₁ : WalletMap) (amount r : ℚ) : SellOutcome :=
  let revenue := amount * r
  let wallets₂ :=
    if (lookupA wallets₁ "USD").isSome then wallets₁
    else
      match add_currency wallets₁ "USD" with
      | .ok ws => ws
      | .error _ => wallets₁
  let usdBal := (lookupA wallets₂ "USD").getD 0
  match Wallet.setBalance (usdBal + revenue) with
  | .error _ => .balanceError wallets₂
  | .ok u₂ => .done (setA wallets₂ "USD" u₂) r revenue

theorem sell_eval (rates : RatesTable) (wallets₀ : WalletMap) (currency : String)
    (amount B : ℚ) (hpos : 0 < amount)
    (hb : lookupA wallets₀ (upperString currency) = some B) (hle : amount ≤ B) :
    sell rates wallets₀ currency amount =
      match get_rate rates (upperString currency) "USD" with
      | none => .rateUnavailable (setA wallets₀ (upperString currency) (B - amount))
      | some r => sellCredit (setA wallets₀ (upperString currency) (B - amount)) amount r := by
  have hneg : ¬ amount ≤ 0 := not_le.mpr hpos
  unfold sell
  rw [if_neg hneg]
  simp only [hb]
  rw [if_neg (not_lt.mpr hle)]
  rw [Wallet.setBalance, if_neg (by linarith : ¬ B - amount < 0)]
  cases hr : get_rate rates (upperString currency) "USD" with
  | none => simp
  | some r => simp [sellCredit]

theorem lookupA_sellCredit_ne (wallets₁ : WalletMap) (amount r : ℚ) (c : String)
    (hc : c ≠ "USD") :
    lookupA (sellWallets (sellCredit wallets₁ amount r)) c = lookupA wallets₁ c := by
  have hne : "USD" ≠ c := Ne.symm hc
  simp only [sellCredit]
  cases hU : (lookupA wallets₁ "USD").isSome with
  | true =>
      simp only [hU, if_true]
      cases hsb : Wallet.setBalance ((lookupA wallets₁ "USD").getD 0 + amount * r) with
      | error e => simp [sellWallets]
      | ok u₂ => simp [sellWallets, lookupA_setA_ne _ _ _ _ hne]
  | false =>
      simp only [hU, Bool.false_eq_true, if_false, add_currency, Bool.false_eq_true]
      cases hsb : Wallet.setBalance ((lookupA (setA wallets₁ "USD" 0) "USD").getD 0 + amount * r) with
      | error e => simp [hU, sellWallets, hsb, lookupA_setA_ne _ _ _ _ hne]
      | ok u₂ => simp [hU, sellWallets, hsb, lookupA_setA_ne _ _ _ _ hne]

theorem lookupA_sellCredit_usd (wallets₀ : WalletMap) (B amount r : ℚ)
    (hle : amount ≤ B) (hr0 : 0 ≤ amount * r) :
    lookupA (sellWallets (sellCredit (setA wallets₀ "USD" (B - amount)) amount r)) "USD"
      = some (B - amount + amount * r) := by
  have hself : lookupA (setA wallets₀ "USD" (B - amount)) "USD" = some (B - amount) :=
    lookupA_setA_self _ _ _
  simp only [sellCredit, hself, Option.isSome_some, if_true, Option.getD_some]
  rw [Wallet.setBalance, if_neg (by linarith : ¬ B - amount + amount * r < 0)]
  simp [sellWallets, lookupA_setA_self]

theorem lookupA_sellCredit_usd_nonneg (wallets₀ : WalletMap) (B amount r : ℚ)
    (hle : amount ≤ B) (b₂ : ℚ)
    (h : lookupA (sellWallets (sellCredit (setA wallets₀ "USD" (B - amount)) amount r)) "USD"
        = some b₂) : 0 ≤ b₂ := by
  have hself : lookupA (setA wallets₀ "USD" (B - amount)) "USD" = some (B - amount) :=
    lookupA_setA_self _ _ _
  simp only [sellCredit, hself, Option.isSome_some, if_true, Option.getD_some] at h
  by_cases hcr : B - amount + amount * r < 0
  · rw [Wallet.setBalance, if_pos hcr] at h
    simp only [sellWallets, hself] at h
    cases h
    linarith
  · rw [Wallet.setBalance, if_neg hcr] at h
    simp only [sellWallets, lookupA_setA_self] at h
    cases h
    linarith

/-- Counterexample to C2 as stated: selling five USD from a ten-USD wallet
with the directed rate USD to USD present at one succeeds, yet the sold
wallet's balance ends at ten, the revenue having been credited back into the
very wallet that was debited, not at ten minus five. -/
theorem sell_usd_self_credit_counterexample :
    sell [("USD", [("USD", 1)])] [("USD", 10)] "USD" 5 = .done [("USD", 10)] 1 5
    ∧ lookupA (sellWallets (sell [("USD", [("USD", 1)])] [("USD", 10)] "USD" 5)) "USD"
        = some 10
    ∧ (10 : ℚ) ≠ 10 - 5 := by
  have hU : upperString "USD" = "USD" := by decide
  refine ⟨?_, ?_, by norm_num⟩
  · norm_num [sell, hU, lookupA, setA, get_rate, Wallet.setBalance, add_currency]
  · norm_num [sell, sellWallets, hU, lookupA, setA, get_rate, Wallet.setBalance, add_currency]

/-- C2 amended. A sell with a valid positive amount on a wallet holding B
fails with InsufficientFunds before any mutation whenever the amount exceeds
B, leaving the wallet mapping unchanged. Otherwise it succeeds and the sold
wallet's balance ends at exactly B minus the amount when the currency sold is
not USD, and also when it is USD but the USD-to-USD rate is unavailable; when
the currency sold is USD and a nonnegative USD-to-USD rate is available, the
revenue is credited back into the sold wallet, which ends at B minus the
amount plus amount times the rate. The sold wallet's balance never goes below
zero, for every rate table: a credit that would drive it negative is rejected
by the balance setter before any store. -/
theorem sell_balance_transition (rates : RatesTable) (wallets₀ : WalletMap)
    (currency : String) (amount B : ℚ) (hpos : 0 < amount)
    (hb : lookupA wallets₀ (upperString currency) = some B) :
    (B < amount → sell rates wallets₀ currency amount = .insufficientFunds wallets₀)
    ∧ (amount ≤ B → upperString currency ≠ "USD" →
        lookupA (sellWallets (sell rates wallets₀ currency amount)) (upperString currency)
          = some (B - amount))
    ∧ (amount ≤ B → upperString currency = "USD" →
        get_rate rates "USD" "USD" = none →
        lookupA (sellWallets (sell rates wallets₀ currency amount)) "USD"
          = some (B - amount))
    ∧ (amount ≤ B → upperString currency = "USD" →
        ∀ r, get_rate rates "USD" "USD" = some r → 0 ≤ r →
        lookupA (sellWallets (sell rates wallets₀ currency amount)) "USD"
          = some (B - amount + amount * r))
    ∧ (0 ≤ B →
        ∀ b₂, lookupA (sellWallets (sell rates wallets₀ currency amount))
            (upperString currency) = some b₂ → 0 ≤ b₂) := by
  have hneg : ¬ amount ≤ 0 := not_le.mpr hpos
  have hins : B < amount → sell rates wallets₀ currency amount = .insufficientFunds wallets₀ := by
    intro hlt
    unfold sell
    rw [if_neg hneg]
    simp only [hb]
    rw [if_pos hlt]
  have hne_case : amount ≤ B → upperString currency ≠ "USD" →
      lookupA (sellWallets (sell rates wallets₀ currency amount)) (upperString currency)
        = some (B - amount) := by
    intro hle hcne
    rw [sell_eval rates wallets₀ currency amount B hpos hb hle]
    cases hr : get_rate rates (upperString currency) "USD" with
    | none => simp [sellWallets, lookupA_setA_self]
    | some r =>
        simp only
        rw [lookupA_sellCredit_ne _ _ _ _ hcne, lookupA_setA_self]
  have husd_none : amount ≤ B → upperString currency = "USD" →
      get_rate rates "USD" "USD" = none →
      lookupA (sellWallets (sell rates wallets₀ currency amount)) "USD"
        = some (B - amount) := by
    intro hle hcU hr
    rw [sell_eval rates wallets₀ currency amount B hpos hb hle, hcU, hr]
    simp [sellWallets, lookupA_setA_self]
  have husd_some : amount ≤ B → upperString currency = "USD" →
      ∀ r, get_rate rates "USD" "USD" = some r → 0 ≤ r →
      lookupA (sellWallets (sell rates wallets₀ currency amount)) "USD"
        = some (B - amount + amount * r) := by
    intro hle hcU r hr hr0
    rw [sell_eval rates wallets₀ currency amount B hpos hb hle, hcU, hr]
    exact lookupA_sellCredit_usd wallets₀ B amount r hle (mul_nonneg hpos.le hr0)
  refine ⟨hins, hne_case, husd_none, husd_some, ?_⟩
  intro hB0 b₂ hb₂
  by_cases hlt : B < amount
  · rw [hins hlt] at hb₂
    simp only [sellWallets, hb] at hb₂
    cases hb₂
    exact hB0
  · have hle : amount ≤ B := not_lt.mp hlt
    by_cases hcU : upperString currency = "USD"
    · cases hr : get_rate rates "USD" "USD" with
      | none =>
          rw [hcU] at hb₂
          rw [husd_none hle hcU hr] at hb₂
          cases hb₂
          linarith
      | some r =>
          rw [hcU] at hb₂
          rw [sell_eval rates wallets₀ currency amount B hpos hb hle, hcU, hr] at hb₂
          exact lookupA_sellCredit_usd_nonneg wallets₀ B amount r hle b₂ hb₂
    · rw [hne_case hle hcU] at hb₂
      cases hb₂
      linarith

/-- Witness for C2 at a concrete sell: a ten-EUR wallet, the rate EUR to USD
present at eleven tenths, amounts five (succeeds) and twenty (rejected). -/
theorem sell_balance_transition_witness :
    (0 < (5 : ℚ) ∧ lookupA [("EUR", (10 : ℚ))] (upperString "EUR") = some 10)
    ∧ (((10 : ℚ) < 5 → sell [("EUR", [("USD", 11 / 10)])] [("EUR", 10)] "EUR" 5
          = .insufficientFunds [("EUR", 10)])
       ∧ ((5 : ℚ) ≤ 10 → upperString "EUR" ≠ "USD" →
            lookupA (sellWallets (sell [("EUR", [("USD", 11 / 10)])] [("EUR", 10)] "EUR" 5))
              (upperString "EUR") = some (10 - 5))
       ∧ ((5 : ℚ) ≤ 10 → upperString "EUR" = "USD" →
            get_rate [("EUR", [("USD", 11 / 10)])] "USD" "USD" = none →
            lookupA (sellWallets (sell [("EUR", [("USD", 11 / 10)])] [("EUR", 10)] "EUR" 5))
              "USD" = some (10 - 5))
       ∧ ((5 : ℚ) ≤ 10 → upperString "EUR" = "USD" →
            ∀ r, get_rate [("EUR", [("USD", 11 / 10)])] "USD" "USD" = some r → 0 ≤ r →
            lookupA (sellWallets (sell [("EUR", [("USD", 11 / 10)])] [("EUR", 10)] "EUR" 5))
              "USD" = some (10 - 5 + 5 * r))
       ∧ (0 ≤ (10 : ℚ) →
            ∀ b₂, lookupA (sellWallets (sell [("EUR", [("USD", 11 / 10)])] [("EUR", 10)] "EUR" 5))
                (upperString "EUR") = some b₂ → 0 ≤ b₂)) :=
  ⟨⟨by norm_num, by decide⟩,
   sell_balance_transition [("EUR", [("USD", 11 / 10)])] [("EUR", 10)] "EUR" 5 10
     (by norm_num) (by decide)⟩

/-- Wallet mappings reachable from a starting mapping by dict assignments
only: every mutation of the portfolio's wallets dict in the source is an
assignment (no key is ever deleted). -/
inductive SetChain (ws₀ : WalletMap) : WalletMap → Prop where
  | refl : SetChain ws₀ ws₀
  | step (ws : WalletMap) (k : String) (v : ℚ) :
      SetChain ws₀ ws → SetChain ws₀ (setA ws k v)

theorem SetChain.presence {ws₀ ws : WalletMap} (h : SetChain ws₀ ws) (c : String)
    (hc : (lookupA ws₀ c).isSome) : (lookupA ws c).isSome := by
  induction h with
  | refl => exact hc
  | step ws k v _ ih => exact lookupA_setA_isSome ws k c v ih

theorem SetChain.keys_nodup {ws₀ ws : WalletMap} (h : SetChain ws₀ ws)
    (hnd : (keysA ws₀).Nodup) : (keysA ws).Nodup := by
  induction h with
  | refl => exact hnd
  | step ws k v _ ih => exact keysA_setA_nodup ws k v ih

theorem buy_chain (rates : RatesTable) (wallets₀ : WalletMap) (currency : String)
    (amount : ℚ) : SetChain wallets₀ (buyWallets (buy rates wallets₀ currency amount)) := by
  by_cases ha : amount ≤ 0
  · simp only [buy, if_pos ha, buyWallets]
    exact SetChain.refl
  · simp only [buy, if_neg ha]
    by_cases hc : (lookupA wallets₀ (upperString currency)).isSome
    · simp only [hc, if_true]
      split
      · simp only [buyWallets]; exact SetChain.refl
      · split
        · simp only [buyWallets]; exact SetChain.step _ _ _ SetChain.refl
        · simp only [buyWallets]; exact SetChain.step _ _ _ SetChain.refl
    · simp only [hc, Bool.false_eq_true, if_false, add_currency]
      split
      · simp only [buyWallets]; exact SetChain.step _ _ _ SetChain.refl
      · split
        · simp only [buyWallets]
          exact SetChain.step _ _ _ (SetChain.step _ _ _ SetChain.refl)
        · simp only [buyWallets]
          exact SetChain.step _ _ _ (SetChain.step _ _ _ SetChain.refl)

theorem sellCredit_chain (wallets₀ wallets₁ : WalletMap) (amount r : ℚ)
    (h : SetChain wallets₀ wallets₁) :
    SetChain wallets₀ (sellWallets (sellCredit wallets₁ amount r)) := by
  simp only [sellCredit]
  split
  · simp only [sellWallets]
    split
    · exact h
    · rename_i hU
      split
      · rename_i ws heq
        simp only [add_currency] at heq
        rw [if_neg hU] at heq
        cases heq
        exact SetChain.step _ _ _ h
      · exact h
  · simp only [sellWallets]
    split
    · exact SetChain.step _ _ _ h
    · rename_i hU
      split
      · rename_i ws heq
        simp only [add_currency] at heq
        rw [if_neg hU] at heq
        cases heq
        exact SetChain.step _ _ _ (SetChain.step _ _ _ h)
      · exact SetChain.step _ _ _ h

theorem sell_chain (rates : RatesTable) (wallets₀ : WalletMap) (currency : String)
    (amount : ℚ) : SetChain wallets₀ (sellWallets (sell rates wallets₀ currency amount)) := by
  by_cases ha : amount ≤ 0
  · simp only [sell, if_pos ha, sellWallets]
    exact SetChain.refl
  · simp only [sell, if_neg ha]
    cases hb : lookupA wallets₀ (upperString currency) with
    | none => simp only [sellWallets]; exact SetChain.refl
    | some b =>
        by_cases hlt : b < amount
        · simp only [if_pos hlt, sellWallets]
          exact SetChain.refl
        · simp only [if_neg hlt]
          split
          · simp only [sellWallets]; exact SetChain.refl
          · split
            · simp only [sellWallets]; exact SetChain.step _ _ _ SetChain.refl
            · exact sellCredit_chain _ _ _ _ (SetChain.step _ _ _ SetChain.refl)

/-- One mutation of a portfolio's wallet mapping available in the system: a
call to add_currency, a buy command, a sell command, or a deposit, withdraw or
balance assignment on the wallet of one code. -/
inductive PortfolioOp where
  | addCurrency (code : String)
  | buyOp (rates : RatesTable) (currency : String) (amount : ℚ)
  | sellOp (rates : RatesTable) (currency : String) (amount : ℚ)
  | walletOp (code : String) (op : WalletOp)

/-- Effect of one portfolio operation on the wallet mapping; an operation that
raises leaves the mapping as it was. -/
def portfolioStep (ws : WalletMap) : PortfolioOp → WalletMap
  | .addCurrency code =>
      match add_currency ws code with
      | .ok ws₂ => ws₂
      | .error _ => ws
  | .buyOp rates currency amount => buyWallets (buy rates ws currency amount)
  | .sellOp rates currency amount => sellWallets (sell rates ws currency amount)
  | .walletOp code op =>
      match lookupA ws code with
      | none => ws
      | some b =>
          match walletStep b op with
          | .ok b₂ => setA ws code b₂
          | .error _ => ws

/-- Run a sequence of portfolio operations. -/
def runPortfolioOps (ws : WalletMap) : List PortfolioOp → WalletMap
  | [] => ws
  | op :: ops => runPortfolioOps (portfolioStep ws op) ops

theorem portfolioStep_chain (ws : WalletMap) (op : PortfolioOp) :
    SetChain ws (portfolioStep ws op) := by
  cases op with
  | addCurrency code =>
      simp only [portfolioStep]
      split
      · rename_i ws₂ heq
        simp only [add_currency] at heq
        split at heq
        · cases heq
        · cases heq
          exact SetChain.step _ _ _ SetChain.refl
      · exact SetChain.refl
  | buyOp rates currency amount => exact buy_chain rates ws currency amount
  | sellOp rates currency amount => exact sell_chain rates ws currency amount
  | walletOp code op =>
      simp only [portfolioStep]
      split
      · exact SetChain.refl
      · split
        · exact SetChain.step _ _ _ SetChain.refl
        · exact SetChain.refl

theorem runPortfolioOps_presence (ws : WalletMap) (ops : List PortfolioOp) (c : String)
    (h : (lookupA ws c).isSome) : (lookupA (runPortfolioOps ws ops) c).isSome := by
  induction ops generalizing ws with
  | nil => simpa [runPortfolioOps] using h
  | cons op ops ih =>
      simp only [runPortfolioOps]
      exact ih (portfolioStep ws op) ((portfolioStep_chain ws op).presence c h)

theorem runPortfolioOps_nodup (ws : WalletMap) (ops : List PortfolioOp)
    (h : (keysA ws).Nodup) : (keysA (runPortfolioOps ws ops)).Nodup := by
  induction ops generalizing ws with
  | nil => simpa [runPortfolioOps] using h
  | cons op ops ih =>
      simp only [runPortfolioOps]
      exact ih (portfolioStep ws op) ((portfolioStep_chain ws op).keys_nodup h)

/-- C5. add_currency creates a zero-balance wallet for a code with none, and a
second call for the same code after any sequence of portfolio mutations fails
with DuplicateWallet and leaves the wallet mapping unchanged; the keys of the
mapping stay free of duplicates, so at most one wallet exists per currency
code. -/
theorem add_currency_duplicate_always_fails (ws ws₁ : WalletMap) (code : String)
    (ops : List PortfolioOp) (hnd : (keysA ws).Nodup)
    (hadd : add_currency ws code = .ok ws₁) :
    lookupA ws code = none
    ∧ ws₁ = setA ws code 0
    ∧ lookupA ws₁ code = some 0
    ∧ add_currency (runPortfolioOps ws₁ ops) code = .error "DuplicateWallet"
    ∧ portfolioStep (runPortfolioOps ws₁ ops) (.addCurrency code) = runPortfolioOps ws₁ ops
    ∧ (keysA (runPortfolioOps ws₁ ops)).Nodup := by
  have hnone : lookupA ws code = none ∧ ws₁ = setA ws code 0 := by
    simp only [add_currency] at hadd
    split at hadd
    · cases hadd
    · rename_i hns
      cases hadd
      exact ⟨Option.not_isSome_iff_eq_none.mp (by simpa using hns), rfl⟩
  have hsome : (lookupA ws₁ code).isSome := by
    rw [hnone.2, lookupA_setA_self]
    rfl
  have hpres : (lookupA (runPortfolioOps ws₁ ops) code).isSome :=
    runPortfolioOps_presence ws₁ ops code hsome
  have hdup : add_currency (runPortfolioOps ws₁ ops) code = .error "DuplicateWallet" := by
    simp [add_currency, hpres]
  refine ⟨hnone.1, hnone.2, ?_, hdup, ?_, ?_⟩
  · rw [hnone.2, lookupA_setA_self]
  · simp [portfolioStep, hdup]
  · exact runPortfolioOps_nodup ws₁ ops
      (by rw [hnone.2]; exact keysA_setA_nodup ws code 0 hnd)

/-- Witness for C5 at a concrete portfolio: an empty mapping, add EUR, then a
buy and a deposit; the second add of EUR fails with DuplicateWallet. -/
theorem add_currency_duplicate_always_fails_witness :
    ((keysA ([] : WalletMap)).Nodup
     ∧ add_currency [] "EUR" = .ok [("EUR", 0)])
    ∧ (lookupA ([] : WalletMap) "EUR" = none
       ∧ [("EUR", (0 : ℚ))] = setA [] "EUR" 0
       ∧ lookupA [("EUR", (0 : ℚ))] "EUR" = some 0
       ∧ add_currency (runPortfolioOps [("EUR", 0)]
            [.buyOp [] "EUR" 5, .walletOp "EUR" (.deposit 2)]) "EUR"
          = .error "DuplicateWallet"
       ∧ portfolioStep (runPortfolioOps [("EUR", 0)]
            [.buyOp [] "EUR" 5, .walletOp "EUR" (.deposit 2)]) (.addCurrency "EUR")
          = runPortfolioOps [("EUR", 0)] [.buyOp [] "EUR" 5, .walletOp "EUR" (.deposit 2)]
       ∧ (keysA (runPortfolioOps [("EUR", 0)]
            [.buyOp [] "EUR" 5, .walletOp "EUR" (.deposit 2)])).Nodup) :=
  ⟨⟨by decide, rfl⟩,
   add_currency_duplicate_always_fails [] [("EUR", 0)] "EUR"
     [.buyOp [] "EUR" 5, .walletOp "EUR" (.deposit 2)] (by decide) rfl⟩

/-- Converted value of one wallet line in show_portfolio of cli/interface.py:
the balance itself when the code equals the base, otherwise balance times the
rate when get_rate returns a truthy value, and zero when the rate is absent
or zero (Python `conv = bal * r if r else 0`). -/
def convertedValue (rates : RatesTable) (base code : String) (bal : ℚ) : ℚ :=
  if code = base then bal
  else
    match get_rate rates code base with
    | none => 0
    | some r => if r = 0 then 0 else bal * r

/-- Converted total printed by show_portfolio: the sum of the converted
values over the wallets, in order. -/
def portfolioTotal (rates : RatesTable) (base : String) (wallets : WalletMap) : ℚ :=
  wallets.foldl (fun t cw => t + convertedValue rates base cw.1 cw.2) 0

/-- C7 is violated by show_portfolio: with base USD in the rate table but no
XYZ-to-USD entry, a ten-XYZ wallet is given converted value zero and the
converted total silently counts it as zero, instead of being reported as
unavailable. -/
theorem show_portfolio_zero_valuation :
    get_rate [("USD", [])] "XYZ" "USD" = none
    ∧ convertedValue [("USD", [])] "USD" "XYZ" 10 = 0
    ∧ portfolioTotal [("USD", [])] "USD" [("USD", 3), ("XYZ", 10)] = 3 := by
  have hg : get_rate [("USD", [])] "XYZ" "USD" = none := rfl
  have h2 : convertedValue [("USD", [])] "USD" "XYZ" 10 = 0 := by
    rw [convertedValue, if_neg (by decide : ¬ ("XYZ" : String) = "USD"), hg]
  have h1 : convertedValue [("USD", [])] "USD" "USD" 3 = 3 := by
    rw [convertedValue, if_pos rfl]
  refine ⟨hg, h2, ?_⟩
  simp only [portfolioTotal, List.foldl_cons, List.foldl_nil, h1, h2]
  norm_num

/-- Account data of core/models.py's User that password checking reads. -/
structure UserM where
  user_id : Int
  username : String
  hashed_password : String
  salt : String

/-- Password verification, from User.verify_password in core/models.py: the
hex digest of the hash of the candidate concatenated with the stored salt is
compared with the stored hash for equality. The hash itself is hashlib.sha256
of the Python standard library, outside this repository, so it enters as a
parameter mapping input text to its hex digest. -/
def verify_password (sha256hex : String → String) (u : UserM) (password : String) : Bool :=
  sha256hex (password ++ u.salt) == u.hashed_password

/-- C9. verify_password returns true exactly when the hash digest of the
candidate password concatenated with the stored salt equals the stored
password hash, byte for byte. -/
theorem verify_password_iff (sha256hex : String → String) (u : UserM) (password : String) :
    verify_password sha256hex u password = true
      ↔ sha256hex (password ++ u.salt) = u.hashed_password := by
  simp [verify_password]

/-- Wallet object on the heap, as a Python Wallet instance: its currency code
and balance. -/
structure WalletObj where
  currency_code : String
  balance : ℚ

/-- Heap of the aliasing model for C10: dict objects hold references (by
number) to wallet objects; nextDict is the next fresh dict reference. -/
structure Store where
  nextDict : Nat
  dicts : Nat → List (String × Nat)
  walletHeap : Nat → WalletObj

/-- Portfolio object: its owner and the reference of its internal `_wallets`
dict (whose values are references to shared Wallet objects). -/
structure PortfolioH where
  user_id : Int
  walletsRef : Nat

/-- The wallets property of Portfolio in core/models.py, `dict(self._wallets)`:
allocates a fresh dict object holding a shallow copy of the internal entries
(the same wallet references) and returns its reference. -/
def PortfolioH.wallets (s : Store) (p : PortfolioH) : Store × Nat :=
  let r := s.nextDict
  ({ s with
      nextDict := r + 1,
      dicts := fun d => if d = r then s.dicts p.walletsRef else s.dicts d }, r)

/-- Assignment `d[k] = w` on a dict object of the heap. -/
def dictInsert (s : Store) (d : Nat) (k : String) (w : Nat) : Store :=
  { s with dicts := fun e => if e = d then setA (s.dicts d) k w else s.dicts e }

/-- Deletion `del d[k]` on a dict object of the heap. -/
def dictErase (s : Store) (d : Nat) (k : String) : Store :=
  { s with dicts := fun e => if e = d then eraseA (s.dicts d) k else s.dicts e }

/-- Balance assignment on a shared wallet object, through the balance setter
of core/models.py: a negative value is rejected, otherwise the object on the
heap is updated in place, visible through every reference to it. -/
def setWalletBalance (s : Store) (w : Nat) (v : ℚ) : Option Store :=
  if v < 0 then none
  else some { s with
    walletHeap := fun u =>
      if u = w then { s.walletHeap u with balance := v } else s.walletHeap u }

/-- The get_wallet operation of core/models.py on the heap model: the wallet
reference stored in the portfolio's internal dict for the code. -/
def PortfolioH.get_wallet (s : Store) (p : PortfolioH) (code : String) : Option Nat :=
  lookupA (s.dicts p.walletsRef) code

/-- C10. The wallets accessor returns a fresh shallow copy: the returned dict
object holds the same entries as the portfolio's internal dict, inserting or
deleting a key in the returned dict leaves the portfolio's internal dict
unchanged, yet the wallet references inside are shared, so assigning the
balance of a wallet reached through the returned copy changes the wallet
observed through the portfolio itself. -/
theorem wallets_shallow_copy (s : Store) (p : PortfolioH)
    (hwf : p.walletsRef < s.nextDict) (k : String) (wref : Nat) (code : String)
    (v : ℚ) (hcode : lookupA (s.dicts p.walletsRef) code = some wref) (hv : 0 ≤ v) :
    ((PortfolioH.wallets s p).1.dicts (PortfolioH.wallets s p).2
        = s.dicts p.walletsRef)
    ∧ ((dictInsert (PortfolioH.wallets s p).1 (PortfolioH.wallets s p).2 k wref).dicts
        p.walletsRef = s.dicts p.walletsRef)
    ∧ ((dictErase (PortfolioH.wallets s p).1 (PortfolioH.wallets s p).2 k).dicts
        p.walletsRef = s.dicts p.walletsRef)
    ∧ (∃ s₂, setWalletBalance (PortfolioH.wallets s p).1 wref v = some s₂
        ∧ PortfolioH.get_wallet s₂ p code = some wref
        ∧ (s₂.walletHeap wref).balance = v) := by
  have hne : p.walletsRef ≠ s.nextDict := Nat.ne_of_lt hwf
  refine ⟨?_, ?_, ?_, ?_⟩
  · simp [PortfolioH.wallets]
  · simp [dictInsert, PortfolioH.wallets, hne]
  · simp [dictErase, PortfolioH.wallets, hne]
  · refine ⟨{ (PortfolioH.wallets s p).1 with
        walletHeap := fun u =>
          if u = wref
          then { (PortfolioH.wallets s p).1.walletHeap u with balance := v }
          else (PortfolioH.wallets s p).1.walletHeap u }, ?_, ?_, ?_⟩
    · rw [setWalletBalance, if_neg (not_lt.mpr hv)]
    · simp [PortfolioH.get_wallet, PortfolioH.wallets, hne, hcode]
    · simp [PortfolioH.wallets]

/-- Heap with one portfolio dict (reference zero) holding a USD wallet at
reference zero with balance ten, for the C10 witness. -/
def demoStore : Store :=
  { nextDict := 1
  , dicts := fun d => if d = 0 then [("USD", 0)] else []
  , walletHeap := fun _ => { currency_code := "USD", balance := 10 } }

/-- Portfolio object of the C10 witness. -/
def demoPortfolioH : PortfolioH := { user_id := 1, walletsRef := 0 }

/-- Witness for C10 on the concrete heap demoStore: copying the wallets dict,
inserting EUR into the copy, erasing USD from the copy, and setting the shared
USD wallet's balance to seven through the copy. -/
theorem wallets_shallow_copy_witness :
    (demoPortfolioH.walletsRef < demoStore.nextDict
     ∧ lookupA (demoStore.dicts demoPortfolioH.walletsRef) "USD" = some 0
     ∧ (0 : ℚ) ≤ 7)
    ∧ (((PortfolioH.wallets demoStore demoPortfolioH).1.dicts
          (PortfolioH.wallets demoStore demoPortfolioH).2
          = demoStore.dicts demoPortfolioH.walletsRef)
       ∧ ((dictInsert (PortfolioH.wallets demoStore demoPortfolioH).1
            (PortfolioH.wallets demoStore demoPortfolioH).2 "EUR" 0).dicts
            demoPortfolioH.walletsRef = demoStore.dicts demoPortfolioH.walletsRef)
       ∧ ((dictErase (PortfolioH.wallets demoStore demoPortfolioH).1
            (PortfolioH.wallets demoStore demoPortfolioH).2 "EUR").dicts
            demoPortfolioH.walletsRef = demoStore.dicts demoPortfolioH.walletsRef)
       ∧ (∃ s₂, setWalletBalance (PortfolioH.wallets demoStore demoPortfolioH).1 0 7
            = some s₂
            ∧ PortfolioH.get_wallet s₂ demoPortfolioH "USD" = some 0
            ∧ (s₂.walletHeap 0).balance = 7)) :=
  ⟨⟨by decide, by decide, by norm_num⟩,
   wallets_shallow_copy demoStore demoPortfolioH (by decide) "EUR" 0 "USD" 7
     (by decide) (by norm_num)⟩
